import Mathlib

/-!
Shallow embedding of the `pycico` client library (`cicoapi.py`) and proofs of
the specification's claims about it.

Modelling conventions:
* JSON values (the results of `json.loads` and the values stored in Python
  dictionaries sent as request parameters/bodies) are modelled by `Cico.JVal`.
* Python dictionaries are insertion-ordered association lists; assignment
  `d[k] = v` is `Cico.dinsert` (replace in place when the key exists, append
  otherwise), matching CPython dict semantics.
* Python exceptions (KeyError on a missing dictionary key, IndexError on an
  out-of-range list index, TypeError on an ill-typed operation) are modelled
  with `Except Cico.PyErr`; a Python function that may raise becomes a Lean
  function into `Except`.
* The network is external input: each operation takes the HTTP response the
  server would send (status code plus parsed JSON body, or cookie jar for
  `login`) as an explicit argument, and returns the request data it would
  send together with its Python return value.
* Dictionary keys are modelled as strings (JSON object keys and the column
  names delivered by the service are strings).
* Numbers are modelled as integers; the claims do not involve floats.
-/

namespace Cico

/-- JSON values as produced by `json.loads` / consumed by `json.dumps`. -/
inductive JVal where
  | null : JVal
  | bool : Bool → JVal
  | num : Int → JVal
  | str : String → JVal
  | arr : List JVal → JVal
  | obj : List (String × JVal) → JVal
deriving Repr

/-- Python exceptions that the embedded code can raise. -/
inductive PyErr where
  | keyError : PyErr
  | indexError : PyErr
  | typeError : PyErr
deriving DecidableEq, Repr

/-- Dictionary lookup (first matching key; keys are unique in real dicts). -/
def lookup {α : Type} (l : List (String × α)) (k : String) : Option α :=
  match l with
  | [] => none
  | (k', v) :: rest => if k' = k then some v else lookup rest k

/-- Whether a dictionary has a given key. -/
def hasKey {α : Type} (l : List (String × α)) (k : String) : Bool :=
  l.any (fun p => p.1 = k)

/-- Python dict assignment `d[k] = v`: replace the (unique) matching entry in
place when the key exists, append a new entry otherwise. -/
def dinsert {α : Type} (l : List (String × α)) (k : String) (v : α) : List (String × α) :=
  match l with
  | [] => [(k, v)]
  | (k', v') :: rest => if k' = k then (k, v) :: rest else (k', v') :: dinsert rest k v

/-- Lowercase hexadecimal digit. -/
def hexDigit (n : Nat) : Char :=
  if n < 10 then Char.ofNat (48 + n) else Char.ofNat (87 + n)

/-- Four lowercase hexadecimal digits, as in Python's `\uXXXX` escapes. -/
def hex4 (n : Nat) : String :=
  String.mk [hexDigit (n / 4096 % 16), hexDigit (n / 256 % 16),
             hexDigit (n / 16 % 16), hexDigit (n % 16)]

/-- The `\uXXXX` escape (with a surrogate pair above the BMP), as produced by
`json.dumps` with its default `ensure_ascii=True`. -/
def uEscape (n : Nat) : String :=
  if n < 65536 then "\\u" ++ hex4 n
  else
    let m := n - 65536
    "\\u" ++ hex4 (55296 + m / 1024) ++ "\\u" ++ hex4 (56320 + m % 1024)

/-- How `json.dumps` (default options) escapes one character of a string. -/
def escChar (c : Char) : String :=
  if c = '"' then "\\\""
  else if c = '\\' then "\\\\"
  else if c = '\n' then "\\n"
  else if c = '\r' then "\\r"
  else if c = '\t' then "\\t"
  else if c.toNat = 8 then "\\b"
  else if c.toNat = 12 then "\\f"
  else if c.toNat < 32 || c.toNat > 126 then uEscape c.toNat
  else String.singleton c

/-- A JSON string literal as produced by `json.dumps` (default options). -/
def encodeStr (s : String) : String :=
  "\"" ++ String.join (s.data.map escChar) ++ "\""

mutual

/-- `json.dumps` with default options (separators `", "` and `": "`,
`ensure_ascii=True`), restricted to the integer-numbered values of `JVal`. -/
def dumps : JVal → String
  | .null => "null"
  | .bool true => "true"
  | .bool false => "false"
  | .num n => toString n
  | .str s => encodeStr s
  | .arr l => "[" ++ dumpsElems l ++ "]"
  | .obj l => "\x7b" ++ dumpsMembers l ++ "\x7d"

/-- Comma-separated array elements of `json.dumps`. -/
def dumpsElems : List JVal → String
  | [] => ""
  | [x] => dumps x
  | x :: y :: rest => dumps x ++ ", " ++ dumpsElems (y :: rest)

/-- Comma-separated object members of `json.dumps`. -/
def dumpsMembers : List (String × JVal) → String
  | [] => ""
  | [(k, v)] => encodeStr k ++ ": " ++ dumps v
  | (k, v) :: y :: rest => encodeStr k ++ ": " ++ dumps v ++ ", " ++ dumpsMembers (y :: rest)

end

/-- Python `v == s` for a string literal `s`: true exactly when `v` is that
string (a non-string JSON value never equals a string in Python). -/
def pyEqStr (v : JVal) (s : String) : Bool :=
  match v with
  | .str t => t = s
  | _ => false

/-- Python subscript `v[k]` with a string key: KeyError when the key is
missing, TypeError when `v` is not a dictionary. -/
def JVal.get (v : JVal) (k : String) : Except PyErr JVal :=
  match v with
  | .obj l =>
    match lookup l k with
    | some x => .ok x
    | none => .error .keyError
  | _ => .error .typeError

/-- Python subscript `v[i]` with an integer index: IndexError when out of
range, TypeError when `v` is not a list. -/
def JVal.index (v : JVal) (i : Nat) : Except PyErr JVal :=
  match v with
  | .arr l =>
    match l.get? i with
    | some x => .ok x
    | none => .error .indexError
  | _ => .error .typeError

/-- Python iteration over a value expected to be a JSON array. -/
def JVal.asArr (v : JVal) : Except PyErr (List JVal) :=
  match v with
  | .arr l => .ok l
  | _ => .error .typeError

/-- A value used where Python requires a string (a dictionary key being
written, or an operand of string concatenation). -/
def JVal.asStr (v : JVal) : Except PyErr String :=
  match v with
  | .str s => .ok s
  | _ => .error .typeError

/-- An HTTP response: transport status code and parsed JSON body. -/
structure HttpResp where
  status_code : Nat
  content : JVal

/-- The observable outcome of the login POST: transport status code and the
session's cookie jar (`session.cookies.get_dict()`) after the request. -/
structure LoginResp where
  status_code : Nat
  cookies : List (String × String)

/-- The `requests.Session` object as far as this client observes it. -/
structure SessionObj where
  cookies : List (String × String)

/-- `login(username, password)` from `cicoapi.py`, as a function of the
response the server sends: on a non-200 status it returns `(None, None)`;
otherwise it returns the session and `cookies["PHPSESSID"]`, raising KeyError
when that cookie is absent. -/
def login (resp : LoginResp) : Except PyErr (Option SessionObj × Option String) :=
  if resp.status_code ≠ 200 then .ok (none, none)
  else
    match lookup resp.cookies "PHPSESSID" with
    | some sid => .ok (some ⟨resp.cookies⟩, some sid)
    | none => .error .keyError

/-- The normalized report of `get_report` (`report` local variable). -/
structure Report where
  condition : List (String × JVal)
  fields : List (String × JVal)
  context : List (String × JVal)
deriving Repr

/-- The dictionary `get_report` returns. -/
structure ReportData where
  report : Report
  report_name : String
  collname : JVal
deriving Repr

/-- The query-string data `get_report` sends to `db2.php`. -/
def get_report_request (report_name : String) : List (String × JVal) :=
  [("collname", .str "reports"),
   ("condition", .str ("\x7b\"name\": \"" ++ report_name ++ "\"\x7d")),
   ("rows", .num 1)]

/-- One iteration of the filter-rule loop in `get_report`: an `"="` rule
assigns `condition[rule["col"]] = rule["val"]`, an `"isoneof"` rule assigns
`condition[rule["col"]] = ⦃"$in": rule["val"]⦄`, any other rule leaves the
condition untouched. -/
def applyRule (cond : List (String × JVal)) (rule : JVal) : Except PyErr (List (String × JVal)) := do
  let m ← rule.get "match"
  let cond1 ←
    if pyEqStr m "=" then do
      let v ← rule.get "val"
      let col ← (← rule.get "col").asStr
      pure (dinsert cond col v)
    else pure cond
  if pyEqStr m "isoneof" then do
    let v ← rule.get "val"
    let col ← (← rule.get "col").asStr
    pure (dinsert cond1 col (JVal.obj [("$in", v)]))
  else pure cond1

/-- The filter-rule loop of `get_report`, starting from the empty condition. -/
def normalizeRules (rules : List JVal) : Except PyErr (List (String × JVal)) :=
  rules.foldlM applyRule []

/-- The grid-column loop of `get_report`: `fields[colname] = 1` for each
declared column name. -/
def projectFields (cols : List JVal) : Except PyErr (List (String × JVal)) :=
  cols.foldlM (fun fs c => do
    let s ← c.asStr
    pure (dinsert fs s (JVal.num 1))) []

/-- `get_report(session, report_name)` from `cicoapi.py`, as a function of the
server's response: `None` on a non-200 status, otherwise the normalized
descriptor built from `jresp["rows"][0]` (KeyError / IndexError / TypeError
when the metadata lacks the expected shape). -/
def get_report (resp : HttpResp) (report_name : String) : Except PyErr (Option ReportData) :=
  if resp.status_code ≠ 200 then .ok none
  else do
    let jresp := resp.content
    let rep ← (← jresp.get "rows").index 0
    let rules ← (← rep.get "filterRules").asArr
    let condition ← normalizeRules rules
    let fields ← projectFields (← (← (← (← jresp.get "rows").index 0).get "gridColNames").asArr)
    let db ← rep.get "db"
    pure (some ⟨⟨condition, fields, [("collection", db)]⟩, report_name, db⟩)

/-- `convert_report(report, rows=10)` from `cicoapi.py`: the fixed pagination
dictionary with `condition`, `fields` and `context` overwritten by their
`json.dumps` serializations. -/
def convert_report (report : Report) (rows : Int := 10) : List (String × JVal) :=
  let result : List (String × JVal) :=
    [("rows", .num rows), ("page", .num 1), ("sidx", .str "_id"), ("sord", .str "asc"),
     ("_search", .str "false"), ("splice", .str "none"), ("hook", .str ""), ("hookArgs", .str "")]
  let result := dinsert result "condition" (.str (dumps (.obj report.condition)))
  let result := dinsert result "fields" (.str (dumps (.obj report.fields)))
  let result := dinsert result "context" (.str (dumps (.obj report.context)))
  result

/-- Everything observable about one `get_rows` call: the query parameters and
body it sends, the descriptor after its in-place mutation, and its Python
return value. -/
structure RowsCall where
  params : List (String × JVal)
  data : List (String × JVal)
  updated : ReportData
  result : Except PyErr (Option JVal)

/-- `get_rows(session, report, condition={})` from `cicoapi.py`: merges the
extra condition into the descriptor's condition in place, serializes the
descriptor with `convert_report`, and returns `None` on a non-200 status or
`jresp["rows"]` otherwise. -/
def get_rows (report : ReportData) (resp : HttpResp)
    (condition : List (String × JVal) := []) : RowsCall :=
  let params : List (String × JVal) :=
    [("collname", report.collname), ("reportname", .str report.report_name)]
  let cond := condition.foldl (fun c p => dinsert c p.1 p.2) report.report.condition
  let updated : ReportData := { report with report := { report.report with condition := cond } }
  let data := convert_report updated.report
  let result : Except PyErr (Option JVal) :=
    if resp.status_code ≠ 200 then .ok none
    else (resp.content.get "rows").map some
  ⟨params, data, updated, result⟩

/-- Everything observable about one `set_fields` call: the query parameters
and body it sends and its Python return value. -/
structure EditCall where
  params : List (String × JVal)
  data : List (String × JVal)
  result : Except PyErr (Option String)

/-- `set_fields(session, report, id, fields)` from `cicoapi.py`. Note that
`data["context"]` is the raw context dictionary (the source does not
`json.dumps` it, unlike `keyfields` and `fieldnames`), each changed field is
assigned into the body dictionary, and `data["_id"] = id` is reassigned last.
The result is `None` on a non-200 status, `"ok"` when `jresp["status"]` is
`"ok"`, and `jresp["status"] + ": " + jresp["message"]` otherwise. -/
def set_fields (report : ReportData) (id : JVal) (fields : List (String × JVal))
    (resp : HttpResp) : EditCall :=
  let params : List (String × JVal) :=
    [("collname", report.collname), ("reportname", .str report.report_name),
     ("oper", .str "edit")]
  let data : List (String × JVal) :=
    [("context", .obj report.report.context),
     ("keyfields", .str (dumps (.arr [.str "_id"]))),
     ("_id", id),
     ("fieldnames", .str (dumps (.arr (fields.map (fun p => JVal.str p.1)))))]
  let data := fields.foldl (fun d p => dinsert d p.1 p.2) data
  let data := dinsert data "_id" id
  let result : Except PyErr (Option String) :=
    if resp.status_code ≠ 200 then .ok none
    else do
      let st ← resp.content.get "status"
      if pyEqStr st "ok" then pure (some "ok")
      else do
        let stS ← st.asStr
        let msg ← resp.content.get "message"
        let msgS ← msg.asStr
        pure (some (stS ++ ": " ++ msgS))
  ⟨params, data, result⟩

/-! Specification-side view of filter rules, used to state the normalization
claim: a rule either carries a supported operator together with its column
and value, or an unsupported operator. -/

/-- A filter rule as the spec describes it: either a supported rule (operator,
column, value) or a rule with an unsupported match operator. -/
inductive RSpec where
  | supp : String → String → JVal → RSpec
  | unsupp : RSpec

/-- The constraint a supported rule contributes to the condition map: the
literal value for `"="`, the set-membership object for `"isoneof"`. -/
def condVal (op : String) (v : JVal) : JVal :=
  if op = "=" then v else .obj [("$in", v)]

/-- The JSON rule `r` carries the data described by a rule spec. -/
def RuleMatches (r : JVal) : RSpec → Prop
  | .supp op col v =>
      r.get "match" = .ok (.str op) ∧ (op = "=" ∨ op = "isoneof") ∧
      r.get "col" = .ok (.str col) ∧ r.get "val" = .ok v
  | .unsupp =>
      ∃ m, r.get "match" = .ok m ∧ pyEqStr m "=" = false ∧ pyEqStr m "isoneof" = false

/-- The condition entries a rule spec contributes. -/
def entryOf : RSpec → List (String × JVal)
  | .supp op col v => [(col, condVal op v)]
  | .unsupp => []

/-- The condition entries a list of rule specs contributes, in order. -/
def condEntries (specs : List RSpec) : List (String × JVal) :=
  (specs.map entryOf).flatten

/-- The columns of the supported rules, in order. -/
def suppCols : List RSpec → List String
  | [] => []
  | .supp _ col _ :: rest => col :: suppCols rest
  | .unsupp :: rest => suppCols rest

/-! Concrete sample data used by counterexamples and witnesses. -/

/-- Sample filter rules: an `"isoneof"` rule, an `"="` rule, and a rule with
the unsupported operator `"contains"`. -/
def sampleRules : List JVal :=
  [.obj [("name", .str "R1"), ("col", .str "programName"), ("match", .str "isoneof"),
         ("val", .arr [.str "Ashramites"]), ("link", .str "and"), ("prec", .str "1")],
   .obj [("name", .str "R2"), ("col", .str "name"), ("match", .str "="),
         ("val", .str "G Kumaran")],
   .obj [("name", .str "R3"), ("col", .str "city"), ("match", .str "contains"),
         ("val", .str "z")]]

/-- The rule specs describing `sampleRules`. -/
def sampleSpecs : List RSpec :=
  [.supp "isoneof" "programName" (.arr [.str "Ashramites"]),
   .supp "=" "name" (.str "G Kumaran"),
   .unsupp]

/-- A successful report-metadata response carrying `sampleRules`. -/
def mdResp : HttpResp :=
  ⟨200, .obj [("rows", .arr [.obj
    [("name", .str "Rep1"),
     ("filterRules", .arr sampleRules),
     ("gridColNames", .arr [.str "name", .str "mobile", .str "checkinDate"]),
     ("db", .str "cico")]])]⟩

/-- Two equality rules on the same column `"a"` with different values. -/
def dupColRules : List JVal :=
  [.obj [("col", .str "a"), ("match", .str "="), ("val", .str "x")],
   .obj [("col", .str "a"), ("match", .str "="), ("val", .str "y")]]

/-- A successful report-metadata response whose two filter rules share the
column `"a"`. -/
def dupColResp : HttpResp :=
  ⟨200, .obj [("rows", .arr [.obj
    [("filterRules", .arr dupColRules),
     ("gridColNames", .arr [.str "a"]),
     ("db", .str "cico")]])]⟩

/-- A sample resolved report descriptor. -/
def rdSample : ReportData :=
  ⟨⟨[("programName", .str "P")], [("name", .num 1), ("mobile", .num 1)],
    [("collection", .str "cico")]⟩, "Rep1", .str "cico"⟩

/-! Helper lemmas about dictionary lookup, assignment and folds. -/

theorem lookup_append {α : Type} (l1 l2 : List (String × α)) (k : String) :
    lookup (l1 ++ l2) k = (lookup l1 k).or (lookup l2 k) := by
  induction l1 with
  | nil => simp [lookup]
  | cons p rest ih =>
    obtain ⟨k', v⟩ := p
    by_cases h : k' = k <;> simp [lookup, h, ih]

theorem lookup_eq_none_of_hasKey_false {α : Type} (l : List (String × α)) (k : String)
    (h : hasKey l k = false) : lookup l k = none := by
  induction l with
  | nil => rfl
  | cons p rest ih =>
    simp [hasKey] at h
    simp [lookup, h.1, ih (by simpa [hasKey] using h.2)]

theorem hasKey_eq_false_of_forall {α : Type} (l : List (String × α)) (k : String)
    (h : ∀ p ∈ l, p.1 ≠ k) : hasKey l k = false := by
  simp [hasKey]
  intro a b hab
  exact h (a, b) hab

theorem lookup_mem {α : Type} (l : List (String × α)) (k : String) (v : α)
    (h : lookup l k = some v) : (k, v) ∈ l := by
  induction l with
  | nil => simp [lookup] at h
  | cons p rest ih =>
    obtain ⟨k', v'⟩ := p
    by_cases hk : k' = k
    · subst hk
      simp [lookup] at h
      simp [h]
    · simp [lookup, hk] at h
      exact List.mem_cons_of_mem _ (ih h)

theorem lookup_dinsert_self {α : Type} (l : List (String × α)) (k : String) (v : α) :
    lookup (dinsert l k v) k = some v := by
  induction l with
  | nil => simp [dinsert, lookup]
  | cons p rest ih =>
    obtain ⟨k', v'⟩ := p
    by_cases hk : k' = k
    · subst hk
      simp [dinsert, lookup]
    · simp [dinsert, lookup, hk, ih]

theorem lookup_dinsert_ne {α : Type} (l : List (String × α)) (k k' : String) (v : α)
    (h : k' ≠ k) : lookup (dinsert l k v) k' = lookup l k' := by
  induction l with
  | nil => simp [dinsert, lookup, Ne.symm h]
  | cons p rest ih =>
    obtain ⟨a, b⟩ := p
    by_cases ha : a = k
    · subst ha
      simp [dinsert, lookup, Ne.symm h]
    · by_cases ha' : a = k' <;> simp [dinsert, lookup, ha, ha', h, ih]

theorem hasKey_eq_isSome {α : Type} (l : List (String × α)) (k : String) :
    hasKey l k = (lookup l k).isSome := by
  induction l with
  | nil => rfl
  | cons p rest ih =>
    obtain ⟨a, b⟩ := p
    by_cases ha : a = k
    · simp [hasKey, lookup, ha]
    · simp only [hasKey, List.any_cons, lookup, if_neg ha, decide_eq_true_eq]
      simp only [hasKey] at ih
      simp [ha, ih]

theorem hasKey_dinsert_of {α : Type} (l : List (String × α)) (k k' : String) (v : α)
    (h : hasKey l k' = true) : hasKey (dinsert l k v) k' = true := by
  by_cases hk : k' = k
  · subst hk
    simp [hasKey_eq_isSome, lookup_dinsert_self]
  · rw [hasKey_eq_isSome, lookup_dinsert_ne l k k' v hk, ← hasKey_eq_isSome]
    exact h

theorem forall_ne_of_hasKey_false {α : Type} (l : List (String × α)) (k : String)
    (h : hasKey l k = false) : ∀ p ∈ l, p.1 ≠ k := by
  intro p hp
  simp [hasKey] at h
  exact h p.1 p.2 (by rw [Prod.mk.eta]; exact hp)

theorem hasKey_append {α : Type} (l1 l2 : List (String × α)) (k : String) :
    hasKey (l1 ++ l2) k = (hasKey l1 k || hasKey l2 k) := by
  simp [hasKey, List.any_append]

theorem dinsert_eq_append_of_fresh {α : Type} (l : List (String × α)) (k : String) (v : α)
    (h : ∀ p ∈ l, p.1 ≠ k) : dinsert l k v = l ++ [(k, v)] := by
  induction l with
  | nil => rfl
  | cons p rest ih =>
    obtain ⟨a, b⟩ := p
    rw [dinsert, if_neg (h (a, b) (List.mem_cons_self _ _))]
    rw [ih (fun q hq => h q (List.mem_cons_of_mem _ hq))]
    rfl

theorem lookup_foldl_dinsert_of_fresh {α : Type} (ps : List (String × α)) :
    ∀ (acc : List (String × α)) (k : String), (∀ p ∈ ps, p.1 ≠ k) →
    lookup (ps.foldl (fun c p => dinsert c p.1 p.2) acc) k = lookup acc k := by
  induction ps with
  | nil => intro acc k _; rfl
  | cons p rest ih =>
    intro acc k h
    rw [List.foldl_cons, ih _ _ (fun q hq => h q (List.mem_cons_of_mem _ hq)),
        lookup_dinsert_ne _ _ _ _ (Ne.symm (h p (List.mem_cons_self _ _)))]

theorem lookup_foldl_dinsert_of_lookup {α : Type} (ps : List (String × α)) :
    ∀ (acc : List (String × α)) (k : String) (v : α), (ps.map Prod.fst).Nodup →
    lookup ps k = some v →
    lookup (ps.foldl (fun c p => dinsert c p.1 p.2) acc) k = some v := by
  induction ps with
  | nil => intro acc k v _ h; simp [lookup] at h
  | cons p rest ih =>
    intro acc k v hnd h
    obtain ⟨a, b⟩ := p
    by_cases ha : a = k
    · subst ha
      rw [lookup, if_pos rfl] at h
      obtain rfl : b = v := by injection h
      rw [List.foldl_cons]
      have hfresh : ∀ q ∈ rest, q.1 ≠ a := by
        intro q hq hqa
        have : a ∈ rest.map Prod.fst := hqa ▸ List.mem_map_of_mem Prod.fst hq
        exact (List.nodup_cons.mp hnd).1 this
      rw [lookup_foldl_dinsert_of_fresh rest _ _ hfresh, lookup_dinsert_self]
    · rw [lookup, if_neg ha] at h
      rw [List.foldl_cons]
      exact ih _ _ _ (List.nodup_cons.mp hnd).2 h

theorem hasKey_foldl_dinsert_of {α : Type} (ps : List (String × α)) :
    ∀ (acc : List (String × α)) (k : String), hasKey acc k = true →
    hasKey (ps.foldl (fun c p => dinsert c p.1 p.2) acc) k = true := by
  induction ps with
  | nil => intro acc k h; exact h
  | cons p rest ih =>
    intro acc k h
    rw [List.foldl_cons]
    exact ih _ _ (hasKey_dinsert_of _ _ _ _ h)

/-! Lemmas about the `Except` monad operations the embedding uses. -/

theorem except_bind_ok {ε α β : Type} (a : α) (f : α → Except ε β) :
    (Except.ok a >>= f) = f a := rfl

theorem except_bind_error {ε α β : Type} (e : ε) (f : α → Except ε β) :
    ((Except.error e : Except ε α) >>= f) = Except.error e := rfl

theorem except_pure_eq {ε α : Type} (a : α) : (pure a : Except ε α) = Except.ok a := rfl

/-! Lemmas about the filter-rule normalization of `get_report`. -/

theorem applyRule_supp (cond : List (String × JVal)) (r : JVal) (op col : String) (v : JVal)
    (h : RuleMatches r (.supp op col v)) :
    applyRule cond r = .ok (dinsert cond col (condVal op v)) := by
  obtain ⟨hm, hop, hcol, hval⟩ := h
  rcases hop with hop | hop <;> subst hop <;>
    simp [applyRule, hm, hcol, hval, pyEqStr, condVal, except_bind_ok, except_pure_eq,
      JVal.asStr]

theorem applyRule_unsupp (cond : List (String × JVal)) (r : JVal)
    (h : RuleMatches r .unsupp) : applyRule cond r = .ok cond := by
  obtain ⟨m, hm, h1, h2⟩ := h
  simp [applyRule, hm, h1, h2, except_bind_ok, except_pure_eq]

theorem condEntries_cons (s : RSpec) (rest : List RSpec) :
    condEntries (s :: rest) = entryOf s ++ condEntries rest := by
  simp [condEntries]

theorem foldlM_applyRule (rules : List JVal) (specs : List RSpec)
    (hf : List.Forall₂ RuleMatches rules specs) :
    ∀ acc : List (String × JVal), (suppCols specs).Nodup →
    (∀ c ∈ suppCols specs, hasKey acc c = false) →
    List.foldlM applyRule acc rules = .ok (acc ++ condEntries specs) := by
  induction hf with
  | nil =>
    intro acc _ _
    simp [condEntries, except_pure_eq]
  | @cons r s rules' specs' hr hrest ih =>
    intro acc hnd hfresh
    cases s with
    | supp op col v =>
      have hndtl : (suppCols specs').Nodup := (List.nodup_cons.mp hnd).2
      have hcolnotin : col ∉ suppCols specs' := (List.nodup_cons.mp hnd).1
      rw [List.foldlM_cons, applyRule_supp _ _ _ _ _ hr, except_bind_ok]
      rw [dinsert_eq_append_of_fresh _ _ _
        (forall_ne_of_hasKey_false _ _ (hfresh col (List.mem_cons_self _ _)))]
      rw [ih _ hndtl ?_]
      · rw [condEntries_cons]
        simp [entryOf]
      · intro c hc
        rw [hasKey_append]
        have h1 : hasKey acc c = false := hfresh c (List.mem_cons_of_mem _ hc)
        have h2 : hasKey [(col, condVal op v)] c = false := by
          have : col ≠ c := fun h => hcolnotin (h ▸ hc)
          simp [hasKey, this]
        rw [h1, h2]
        rfl
    | unsupp =>
      rw [List.foldlM_cons, applyRule_unsupp _ _ hr, except_bind_ok]
      have := ih acc hnd hfresh
      rw [this, condEntries_cons]
      simp [entryOf]

theorem normalizeRules_eq (rules : List JVal) (specs : List RSpec)
    (hf : List.Forall₂ RuleMatches rules specs) (hnd : (suppCols specs).Nodup) :
    normalizeRules rules = .ok (condEntries specs) := by
  have := foldlM_applyRule rules specs hf [] hnd (fun c _ => rfl)
  simpa [normalizeRules] using this

theorem mem_suppCols {op col : String} {v : JVal} : ∀ {specs : List RSpec},
    RSpec.supp op col v ∈ specs → col ∈ suppCols specs := by
  intro specs
  induction specs with
  | nil => intro h; cases h
  | cons s rest ih =>
    intro h
    rcases List.mem_cons.mp h with heq | hmem
    · rw [← heq]
      simp [suppCols]
    · clear h
      cases s with
      | supp op' col' v' =>
        simp only [suppCols, List.mem_cons]
        exact Or.inr (ih hmem)
      | unsupp => simpa [suppCols] using ih hmem

theorem lookup_condEntries : ∀ (specs : List RSpec), (suppCols specs).Nodup →
    ∀ (op col : String) (v : JVal), RSpec.supp op col v ∈ specs →
    lookup (condEntries specs) col = some (condVal op v) := by
  intro specs
  induction specs with
  | nil => intro _ op col v h; cases h
  | cons s rest ih =>
    intro hnd op col v h
    rcases List.mem_cons.mp h with heq | hmem
    · rw [← heq, condEntries_cons]
      simp [entryOf, lookup]
    · clear h
      cases s with
      | supp op' col' v' =>
        have hne : col' ≠ col := by
          intro he
          exact (List.nodup_cons.mp hnd).1 (he ▸ mem_suppCols hmem)
        rw [condEntries_cons]
        simp only [entryOf, List.cons_append, List.nil_append, lookup, if_neg hne]
        exact ih (List.nodup_cons.mp hnd).2 op col v hmem
      | unsupp =>
        rw [condEntries_cons]
        simpa [entryOf] using ih (by simpa [suppCols] using hnd) op col v hmem

theorem condEntries_length (specs : List RSpec) :
    (condEntries specs).length = (suppCols specs).length := by
  induction specs with
  | nil => rfl
  | cons s rest ih =>
    cases s <;> simp [condEntries_cons, entryOf, suppCols, ih]

/-! Lemmas about the grid-column projection of `get_report`. -/

theorem foldlM_projectFields (cols : List String) :
    ∀ acc : List (String × JVal),
    List.foldlM (fun fs c => do
      let s ← JVal.asStr c
      pure (dinsert fs s (JVal.num 1))) acc (cols.map JVal.str) =
    .ok (cols.foldl (fun fs c => dinsert fs c (JVal.num 1)) acc) := by
  induction cols with
  | nil => intro acc; rfl
  | cons c rest ih =>
    intro acc
    simp only [List.map_cons, List.foldlM_cons, JVal.asStr, except_bind_ok, except_pure_eq,
      List.foldl_cons]
    exact ih (dinsert acc c (JVal.num 1))

theorem projectFields_map_str (cols : List String) :
    projectFields (cols.map JVal.str) =
      .ok (cols.foldl (fun fs c => dinsert fs c (JVal.num 1)) []) :=
  foldlM_projectFields cols []

theorem lookup_foldl_ones (cols : List String) :
    ∀ (acc : List (String × JVal)) (s : String),
    lookup (cols.foldl (fun fs c => dinsert fs c (JVal.num 1)) acc) s =
      if s ∈ cols then some (JVal.num 1) else lookup acc s := by
  induction cols with
  | nil => intro acc s; simp
  | cons c rest ih =>
    intro acc s
    rw [List.foldl_cons, ih]
    by_cases hs : s ∈ rest
    · simp [hs]
    · by_cases hsc : s = c
      · subst hsc
        simp [hs, lookup_dinsert_self]
      · simp [hs, hsc, lookup_dinsert_ne _ _ _ _ hsc]

/-! Lemmas characterizing `get_report` on well-shaped metadata responses. -/

theorem get_report_eq (resp : HttpResp) (name : String) (rows0 rep db : JVal)
    (rules : List JVal) (cond : List (String × JVal)) (colNames : List String)
    (h200 : resp.status_code = 200)
    (h1 : resp.content.get "rows" = .ok rows0)
    (h2 : rows0.index 0 = .ok rep)
    (h3 : rep.get "filterRules" = .ok (.arr rules))
    (h4 : normalizeRules rules = .ok cond)
    (h5 : rep.get "gridColNames" = .ok (.arr (colNames.map JVal.str)))
    (h6 : rep.get "db" = .ok db) :
    get_report resp name = .ok (some ⟨⟨cond,
      colNames.foldl (fun fs c => dinsert fs c (JVal.num 1)) [],
      [("collection", db)]⟩, name, db⟩) := by
  rw [get_report, if_neg (by simp [h200])]
  simp only [h1, except_bind_ok, h2, h3, JVal.asArr, h4, h5, h6,
    projectFields_map_str, except_pure_eq]

theorem get_report_ne_ok_none (resp : HttpResp) (name : String)
    (h200 : resp.status_code = 200) : get_report resp name ≠ .ok none := by
  intro h
  rw [get_report, if_neg (by simp [h200])] at h
  cases ha : resp.content.get "rows" with
  | error e => simp [ha, except_bind_error] at h
  | ok rows0 =>
    simp only [ha, except_bind_ok] at h
    cases hb : rows0.index 0 with
    | error e => simp [hb, except_bind_error] at h
    | ok rep =>
      simp only [hb, except_bind_ok] at h
      cases hc : rep.get "filterRules" with
      | error e => simp [hc, except_bind_error] at h
      | ok frv =>
        simp only [hc, except_bind_ok] at h
        cases hd : frv.asArr with
        | error e => simp [hd, except_bind_error] at h
        | ok rules =>
          simp only [hd, except_bind_ok] at h
          cases he : normalizeRules rules with
          | error e => simp [he, except_bind_error] at h
          | ok cond =>
            simp only [he, except_bind_ok] at h
            cases hf : rep.get "gridColNames" with
            | error e => simp [hf, except_bind_error] at h
            | ok gcv =>
              simp only [hf, except_bind_ok] at h
              cases hg : gcv.asArr with
              | error e => simp [hg, except_bind_error] at h
              | ok cols =>
                simp only [hg, except_bind_ok] at h
                cases hh : projectFields cols with
                | error e => simp [hh, except_bind_error] at h
                | ok fields =>
                  simp only [hh, except_bind_ok] at h
                  cases hi : rep.get "db" with
                  | error e => simp [hi, except_bind_error] at h
                  | ok db => simp [hi, except_bind_ok, except_pure_eq] at h

/-- `convert_report` written out: the pagination defaults followed by the
three serialized descriptor components. -/
theorem convert_report_eq (rep : Report) (n : Int) :
    convert_report rep n =
      [("rows", .num n), ("page", .num 1), ("sidx", .str "_id"), ("sord", .str "asc"),
       ("_search", .str "false"), ("splice", .str "none"), ("hook", .str ""),
       ("hookArgs", .str ""),
       ("condition", .str (dumps (.obj rep.condition))),
       ("fields", .str (dumps (.obj rep.fields))),
       ("context", .str (dumps (.obj rep.context)))] := rfl

/-- The condition map and body dictionary of a `get_rows` call, written out. -/
theorem get_rows_updated_condition (rd : ReportData) (resp : HttpResp)
    (extra : List (String × JVal)) :
    (get_rows rd resp extra).updated.report.condition =
      extra.foldl (fun c p => dinsert c p.1 p.2) rd.report.condition := rfl

/-- The body dictionary of a `set_fields` call, written out as the literal
dictionary followed by the per-field assignments and the final `_id`. -/
theorem set_fields_data (rd : ReportData) (id : JVal) (fields : List (String × JVal))
    (resp : HttpResp) :
    (set_fields rd id fields resp).data =
      dinsert (fields.foldl (fun d p => dinsert d p.1 p.2)
        [("context", .obj rd.report.context),
         ("keyfields", .str (dumps (.arr [.str "_id"]))),
         ("_id", id),
         ("fieldnames", .str (dumps (.arr (fields.map (fun p => JVal.str p.1)))))])
        "_id" id := rfl

/-! The claims. -/

/-- C1, counterexample: a metadata record whose two filter rules both use the
supported operator `"="` but share the column `"a"` yields a condition map
with a single entry, not one entry per rule, and the first rule's value
`"x"` is absent from it (the second rule overwrote it). -/
theorem C1_counterexample :
    dupColRules.length = 2 ∧
    normalizeRules dupColRules = .ok [("a", JVal.str "y")] ∧
    get_report dupColResp "R" = .ok (some ⟨⟨[("a", JVal.str "y")], [("a", JVal.num 1)],
      [("collection", JVal.str "cico")]⟩, "R", JVal.str "cico"⟩) :=
  ⟨rfl, rfl, rfl⟩

/-- C1 (amended): for metadata whose filter rules are well-formed, use only
the operators `"="` and `"isoneof"`, and name pairwise-distinct columns,
the normalized condition map has exactly one entry per supported rule, keyed
by the rule's column: equality rules contribute the literal value and
`"isoneof"` rules contribute the set-membership object; rules with any other
match operator contribute no entry; and normalizing the same metadata twice
yields the same condition map (normalization is a pure function). When two
rules share a column the later rule overwrites the earlier one. -/
theorem C1_condition_normalization (rules : List JVal) (specs : List RSpec)
    (hmatch : List.Forall₂ RuleMatches rules specs)
    (hnd : (suppCols specs).Nodup) :
    normalizeRules rules = .ok (condEntries specs) ∧
    (condEntries specs).length = (suppCols specs).length ∧
    (∀ (op col : String) (v : JVal), RSpec.supp op col v ∈ specs →
      lookup (condEntries specs) col = some (condVal op v)) ∧
    normalizeRules rules = normalizeRules rules :=
  ⟨normalizeRules_eq rules specs hmatch hnd, condEntries_length specs,
   fun op col v h => lookup_condEntries specs hnd op col v h, rfl⟩

/-- C1, witness: the amended theorem applied to `sampleRules` (an `"isoneof"`
rule, an `"="` rule, and an unsupported `"contains"` rule). -/
theorem C1_condition_normalization_witness :
    normalizeRules sampleRules = .ok (condEntries sampleSpecs) ∧
    (condEntries sampleSpecs).length = (suppCols sampleSpecs).length ∧
    lookup (condEntries sampleSpecs) "programName" =
      some (condVal "isoneof" (.arr [.str "Ashramites"])) ∧
    lookup (condEntries sampleSpecs) "name" = some (condVal "=" (.str "G Kumaran")) := by
  have h := C1_condition_normalization sampleRules sampleSpecs
    (.cons ⟨rfl, Or.inr rfl, rfl, rfl⟩ (.cons ⟨rfl, Or.inl rfl, rfl, rfl⟩
      (.cons ⟨.str "contains", rfl, rfl, rfl⟩ .nil)))
    (by decide)
  exact ⟨h.1, h.2.1,
    h.2.2.1 "isoneof" "programName" (.arr [.str "Ashramites"]) (List.mem_cons_self _ _),
    h.2.2.1 "=" "name" (.str "G Kumaran")
      (List.mem_cons_of_mem _ (List.mem_cons_self _ _))⟩

/-- C2: for an update call whose response has status 200, if the parsed JSON
status field is exactly `"ok"` then `set_fields` returns exactly `"ok"`, and
for any other status string it returns `"<status>: <message>"`. -/
theorem C2_update_result (rd : ReportData) (id : JVal) (fields : List (String × JVal))
    (resp : HttpResp) (st msg : String) (h200 : resp.status_code = 200) :
    (resp.content.get "status" = .ok (.str "ok") →
      (set_fields rd id fields resp).result = .ok (some "ok")) ∧
    (resp.content.get "status" = .ok (.str st) → st ≠ "ok" →
      resp.content.get "message" = .ok (.str msg) →
      (set_fields rd id fields resp).result = .ok (some (st ++ ": " ++ msg))) := by
  constructor
  · intro hst
    simp [set_fields, h200, hst, pyEqStr, except_bind_ok, except_pure_eq]
  · intro hst hne hmsg
    simp [set_fields, h200, hst, hmsg, pyEqStr, hne, JVal.asStr, except_bind_ok,
      except_pure_eq]

/-- C2, witness: the theorem applied to an `"ok"` response and to an
`"error"` response carrying a message. -/
theorem C2_update_result_witness :
    (set_fields rdSample (.str "id1") [("checkinDate", .str "t")]
        ⟨200, .obj [("status", .str "ok")]⟩).result = .ok (some "ok") ∧
    (set_fields rdSample (.str "id1") [("checkinDate", .str "t")]
        ⟨200, .obj [("status", .str "error"), ("message", .str "not allowed")]⟩).result =
      .ok (some ("error" ++ ": " ++ "not allowed")) :=
  ⟨(C2_update_result rdSample (.str "id1") [("checkinDate", .str "t")]
      ⟨200, .obj [("status", .str "ok")]⟩ "ok" "m" rfl).1 rfl,
   (C2_update_result rdSample (.str "id1") [("checkinDate", .str "t")]
      ⟨200, .obj [("status", .str "error"), ("message", .str "not allowed")]⟩
      "error" "not allowed" rfl).2 rfl (by decide) rfl⟩

/-- C3: a login whose transport response is not 200 returns `(None, None)`;
a login whose response is 200 and whose cookie jar carries `PHPSESSID`
returns the (non-null) session together with exactly that cookie value. -/
theorem C3_login_result (resp : LoginResp) (sid : String) :
    (resp.status_code ≠ 200 → login resp = .ok (none, none)) ∧
    (resp.status_code = 200 → lookup resp.cookies "PHPSESSID" = some sid →
      login resp = .ok (some ⟨resp.cookies⟩, some sid)) := by
  constructor
  · intro h
    simp [login, h]
  · intro h200 hsid
    rw [login, if_neg (by simp [h200]), hsid]

/-- C3, witness: the theorem applied to a successful login carrying a
`PHPSESSID` cookie and to a rejected (403) login. -/
theorem C3_login_result_witness :
    login ⟨200, [("PHPSESSID", "abc")]⟩ =
      .ok (some ⟨[("PHPSESSID", "abc")]⟩, some "abc") ∧
    login ⟨403, []⟩ = .ok (none, none) :=
  ⟨(C3_login_result ⟨200, [("PHPSESSID", "abc")]⟩ "abc").2 rfl rfl,
   (C3_login_result ⟨403, []⟩ "x").1 (by decide)⟩

/-- C4: every key/value pair of the extra condition passed to `get_rows` is
present in the descriptor's stored condition map after the call; entries
whose keys the extra condition does not mention are unchanged; pre-existing
keys are never removed; and the serialized outgoing `condition` body field is
exactly the JSON encoding of that merged map. -/
theorem C4_condition_merge (rd : ReportData) (resp : HttpResp)
    (extra : List (String × JVal)) (hnd : (extra.map Prod.fst).Nodup) :
    (∀ (k : String) (v : JVal), lookup extra k = some v →
      lookup (get_rows rd resp extra).updated.report.condition k = some v) ∧
    (∀ k : String, hasKey extra k = false →
      lookup (get_rows rd resp extra).updated.report.condition k =
        lookup rd.report.condition k) ∧
    (∀ k : String, hasKey rd.report.condition k = true →
      hasKey (get_rows rd resp extra).updated.report.condition k = true) ∧
    lookup (get_rows rd resp extra).data "condition" =
      some (.str (dumps (.obj (get_rows rd resp extra).updated.report.condition))) := by
  refine ⟨?_, ?_, ?_, rfl⟩
  · intro k v h
    rw [get_rows_updated_condition]
    exact lookup_foldl_dinsert_of_lookup extra _ k v hnd h
  · intro k h
    rw [get_rows_updated_condition]
    exact lookup_foldl_dinsert_of_fresh extra _ k (forall_ne_of_hasKey_false extra k h)
  · intro k h
    rw [get_rows_updated_condition]
    exact hasKey_foldl_dinsert_of extra _ k h

/-- C4, witness: the theorem applied to `rdSample` with the extra condition
`mobile = "99"`: the extra pair is stored, the pre-existing `programName`
entry survives unchanged, and the serialized condition reflects the merge. -/
theorem C4_condition_merge_witness :
    lookup (get_rows rdSample ⟨200, .null⟩ [("mobile", .str "99")]).updated.report.condition
      "mobile" = some (.str "99") ∧
    lookup (get_rows rdSample ⟨200, .null⟩ [("mobile", .str "99")]).updated.report.condition
      "programName" = lookup rdSample.report.condition "programName" ∧
    hasKey (get_rows rdSample ⟨200, .null⟩ [("mobile", .str "99")]).updated.report.condition
      "programName" = true ∧
    lookup (get_rows rdSample ⟨200, .null⟩ [("mobile", .str "99")]).data "condition" =
      some (.str (dumps (.obj (get_rows rdSample ⟨200, .null⟩
        [("mobile", .str "99")]).updated.report.condition))) := by
  have h := C4_condition_merge rdSample ⟨200, .null⟩ [("mobile", .str "99")] (by decide)
  exact ⟨h.1 "mobile" (.str "99") rfl, h.2.1 "programName" rfl,
    h.2.2.1 "programName" rfl, h.2.2.2⟩

/-- C5: the serialized `get_rows` request body carries the descriptor's
condition, fields and context as JSON-encoded strings, the fixed pagination
parameters (page 1, sort index `_id`, ascending order, search disabled, no
splice, empty hook), a row count of 10 by default (`convert_report`'s
row-count parameter otherwise), and the request is scoped to the report's
backing collection and display name. -/
theorem C5_request_shape (rd : ReportData) (resp : HttpResp)
    (extra : List (String × JVal)) (rep : Report) (n : Int) :
    lookup (get_rows rd resp extra).data "page" = some (.num 1) ∧
    lookup (get_rows rd resp extra).data "sidx" = some (.str "_id") ∧
    lookup (get_rows rd resp extra).data "sord" = some (.str "asc") ∧
    lookup (get_rows rd resp extra).data "_search" = some (.str "false") ∧
    lookup (get_rows rd resp extra).data "splice" = some (.str "none") ∧
    lookup (get_rows rd resp extra).data "hook" = some (.str "") ∧
    lookup (get_rows rd resp extra).data "hookArgs" = some (.str "") ∧
    lookup (get_rows rd resp extra).data "rows" = some (.num 10) ∧
    lookup (get_rows rd resp extra).data "condition" =
      some (.str (dumps (.obj (get_rows rd resp extra).updated.report.condition))) ∧
    lookup (get_rows rd resp extra).data "fields" =
      some (.str (dumps (.obj rd.report.fields))) ∧
    lookup (get_rows rd resp extra).data "context" =
      some (.str (dumps (.obj rd.report.context))) ∧
    (get_rows rd resp extra).params =
      [("collname", rd.collname), ("reportname", .str rd.report_name)] ∧
    lookup (convert_report rep n) "rows" = some (.num n) :=
  ⟨rfl, rfl, rfl, rfl, rfl, rfl, rfl, rfl, rfl, rfl, rfl, rfl, rfl⟩

/-- C6, counterexample: the edit body's `context` field is the raw context
dictionary, not a JSON-encoded string (the source serializes `keyfields` and
`fieldnames` with `json.dumps` but passes `report["report"]["context"]`
through unserialized); moreover a changed field named `_id` does not reach
the body, because the final `data["_id"] = id` assignment overwrites it. -/
theorem C6_counterexample :
    lookup (set_fields rdSample (.str "id1") [("checkinDate", .str "t")]
        ⟨200, .obj [("status", .str "ok")]⟩).data "context" =
      some (.obj [("collection", .str "cico")]) ∧
    some (JVal.obj [("collection", JVal.str "cico")]) ≠
      some (JVal.str (dumps (JVal.obj [("collection", JVal.str "cico")]))) ∧
    lookup (set_fields rdSample (.str "idX") [("_id", .str "zzz")]
        ⟨200, .obj [("status", .str "ok")]⟩).data "_id" = some (.str "idX") ∧
    some (JVal.str "idX") ≠ some (JVal.str "zzz") := by
  refine ⟨rfl, ?_, rfl, ?_⟩ <;> simp

/-- C6 (amended): the outgoing edit request carries query parameters
`collname`, `reportname` and `oper=edit`, and body fields `context` (the raw
context dictionary, not JSON-encoded), `keyfields` (the JSON array naming
`_id`), the `_id` value, `fieldnames` (the JSON array of the changed field
names), and — provided the changed field names are distinct from each other
and from the reserved body keys `context`/`keyfields`/`_id`/`fieldnames` —
one top-level body field per changed field carrying its new value. -/
theorem C6_edit_request (rd : ReportData) (id : JVal) (fields : List (String × JVal))
    (resp : HttpResp) (hnd : (fields.map Prod.fst).Nodup)
    (hfresh : ∀ p ∈ fields,
      p.1 ≠ "context" ∧ p.1 ≠ "keyfields" ∧ p.1 ≠ "_id" ∧ p.1 ≠ "fieldnames") :
    (set_fields rd id fields resp).params =
      [("collname", rd.collname), ("reportname", .str rd.report_name),
       ("oper", .str "edit")] ∧
    lookup (set_fields rd id fields resp).data "context" =
      some (.obj rd.report.context) ∧
    lookup (set_fields rd id fields resp).data "keyfields" =
      some (.str (dumps (.arr [.str "_id"]))) ∧
    lookup (set_fields rd id fields resp).data "_id" = some id ∧
    lookup (set_fields rd id fields resp).data "fieldnames" =
      some (.str (dumps (.arr (fields.map (fun p => JVal.str p.1))))) ∧
    (∀ (k : String) (v : JVal), lookup fields k = some v →
      lookup (set_fields rd id fields resp).data k = some v) := by
  refine ⟨rfl, ?_, ?_, ?_, ?_, ?_⟩
  · rw [set_fields_data, lookup_dinsert_ne _ _ _ _ (by decide),
      lookup_foldl_dinsert_of_fresh fields _ _ (fun p hp => (hfresh p hp).1)]
    rfl
  · rw [set_fields_data, lookup_dinsert_ne _ _ _ _ (by decide),
      lookup_foldl_dinsert_of_fresh fields _ _ (fun p hp => (hfresh p hp).2.1)]
    rfl
  · rw [set_fields_data, lookup_dinsert_self]
  · rw [set_fields_data, lookup_dinsert_ne _ _ _ _ (by decide),
      lookup_foldl_dinsert_of_fresh fields _ _ (fun p hp => (hfresh p hp).2.2.2)]
    rfl
  · intro k v h
    have hk : (k, v) ∈ fields := lookup_mem fields k v h
    rw [set_fields_data,
      lookup_dinsert_ne _ _ _ _ (by exact (hfresh (k, v) hk).2.2.1)]
    exact lookup_foldl_dinsert_of_lookup fields _ k v hnd h

/-- C6, witness: the amended theorem applied to a single changed field
`checkinDate`. -/
theorem C6_edit_request_witness :
    (set_fields rdSample (.str "id1") [("checkinDate", .str "t")]
        ⟨200, .obj [("status", .str "ok")]⟩).params =
      [("collname", rdSample.collname), ("reportname", .str rdSample.report_name),
       ("oper", .str "edit")] ∧
    lookup (set_fields rdSample (.str "id1") [("checkinDate", .str "t")]
        ⟨200, .obj [("status", .str "ok")]⟩).data "context" =
      some (.obj rdSample.report.context) ∧
    lookup (set_fields rdSample (.str "id1") [("checkinDate", .str "t")]
        ⟨200, .obj [("status", .str "ok")]⟩).data "keyfields" =
      some (.str (dumps (.arr [.str "_id"]))) ∧
    lookup (set_fields rdSample (.str "id1") [("checkinDate", .str "t")]
        ⟨200, .obj [("status", .str "ok")]⟩).data "_id" = some (.str "id1") ∧
    lookup (set_fields rdSample (.str "id1") [("checkinDate", .str "t")]
        ⟨200, .obj [("status", .str "ok")]⟩).data "fieldnames" =
      some (.str (dumps (.arr ([("checkinDate", JVal.str "t")].map
        (fun p => JVal.str p.1))))) ∧
    lookup (set_fields rdSample (.str "id1") [("checkinDate", .str "t")]
        ⟨200, .obj [("status", .str "ok")]⟩).data "checkinDate" = some (.str "t") := by
  have h := C6_edit_request rdSample (.str "id1") [("checkinDate", .str "t")]
    ⟨200, .obj [("status", .str "ok")]⟩ (by decide)
    (fun p hp => by
      rw [List.mem_singleton.mp hp]
      exact ⟨by decide, by decide, by decide, by decide⟩)
  exact ⟨h.1, h.2.1, h.2.2.1, h.2.2.2.1, h.2.2.2.2.1,
    h.2.2.2.2.2 "checkinDate" (.str "t") rfl⟩

/-- C7: any `get_report`, `get_rows` or `set_fields` call whose transport
response has a non-200 status returns `None` without raising; on a 200
response `get_rows` returns the `rows` member of the parsed JSON verbatim,
whatever shape it has. -/
theorem C7_transport_failure (name : String) (rd : ReportData)
    (extra : List (String × JVal)) (id : JVal) (fields : List (String × JVal))
    (resp : HttpResp) (rowsv : JVal) :
    (resp.status_code ≠ 200 →
      get_report resp name = .ok none ∧
      (get_rows rd resp extra).result = .ok none ∧
      (set_fields rd id fields resp).result = .ok none) ∧
    (resp.status_code = 200 → resp.content.get "rows" = .ok rowsv →
      (get_rows rd resp extra).result = .ok (some rowsv)) := by
  constructor
  · intro h
    exact ⟨by simp [get_report, h], by simp [get_rows, h], by simp [set_fields, h]⟩
  · intro h200 hrows
    simp [get_rows, h200, hrows, Except.map]

/-- C7, witness: the theorem applied to a 500 response (all three operations
return `None`) and to a 200 response with a `rows` member. -/
theorem C7_transport_failure_witness :
    (get_report ⟨500, JVal.null⟩ "R" = .ok none ∧
     (get_rows rdSample ⟨500, JVal.null⟩ []).result = .ok none ∧
     (set_fields rdSample (.str "i") [] ⟨500, JVal.null⟩).result = .ok none) ∧
    (get_rows rdSample ⟨200, .obj [("rows", .arr [.str "r1"])]⟩ []).result =
      .ok (some (.arr [.str "r1"])) :=
  ⟨(C7_transport_failure "R" rdSample [] (.str "i") [] ⟨500, JVal.null⟩ .null).1
      (by decide),
   (C7_transport_failure "R" rdSample [] (.str "i") []
      ⟨200, .obj [("rows", .arr [.str "r1"])]⟩ (.arr [.str "r1"])).2 rfl rfl⟩

/-- C8: on a successful metadata fetch, every declared grid column name
becomes a key of the descriptor's fields map bound to the constant marker 1
(and nothing else does), the nested context records only the backing
collection name, and the returned value assembles exactly the normalized
report, the original report name, and the backing collection name. -/
theorem C8_report_descriptor (resp : HttpResp) (name : String) (rows0 rep db : JVal)
    (rules : List JVal) (cond : List (String × JVal)) (colNames : List String)
    (h200 : resp.status_code = 200)
    (h1 : resp.content.get "rows" = .ok rows0)
    (h2 : rows0.index 0 = .ok rep)
    (h3 : rep.get "filterRules" = .ok (.arr rules))
    (h4 : normalizeRules rules = .ok cond)
    (h5 : rep.get "gridColNames" = .ok (.arr (colNames.map JVal.str)))
    (h6 : rep.get "db" = .ok db) :
    ∃ fields : List (String × JVal),
      get_report resp name =
        .ok (some ⟨⟨cond, fields, [("collection", db)]⟩, name, db⟩) ∧
      ∀ s : String,
        lookup fields s = if s ∈ colNames then some (JVal.num 1) else none := by
  refine ⟨colNames.foldl (fun fs c => dinsert fs c (JVal.num 1)) [],
    get_report_eq resp name rows0 rep db rules cond colNames h200 h1 h2 h3 h4 h5 h6, ?_⟩
  intro s
  rw [lookup_foldl_ones colNames [] s]
  rfl

/-- C8, witness: the theorem applied to `mdResp`, whose grid declares the
columns `name`, `mobile` and `checkinDate`. -/
theorem C8_report_descriptor_witness :
    ∃ fields : List (String × JVal),
      get_report mdResp "Rep1" = .ok (some ⟨⟨
        [("programName", .obj [("$in", .arr [.str "Ashramites"])]),
         ("name", .str "G Kumaran")],
        fields, [("collection", .str "cico")]⟩, "Rep1", .str "cico"⟩) ∧
      ∀ s : String, lookup fields s =
        if s ∈ ["name", "mobile", "checkinDate"] then some (JVal.num 1) else none :=
  C8_report_descriptor mdResp "Rep1" _ _ _ _ _ ["name", "mobile", "checkinDate"]
    rfl rfl rfl rfl rfl rfl rfl

/-- C9: a login whose transport response has status 200 but whose cookie jar
carries no `PHPSESSID` cookie raises a missing-key error rather than
returning a sentinel pair. -/
theorem C9_login_missing_cookie (resp : LoginResp) (h200 : resp.status_code = 200)
    (hmiss : lookup resp.cookies "PHPSESSID" = none) :
    login resp = .error .keyError := by
  rw [login, if_neg (by simp [h200]), hmiss]

/-- C9, witness: the theorem applied to a 200 response whose jar holds only
an unrelated cookie. -/
theorem C9_login_missing_cookie_witness :
    login ⟨200, [("other", "x")]⟩ = .error .keyError :=
  C9_login_missing_cookie ⟨200, [("other", "x")]⟩ rfl rfl

/-- C10: a `get_report` call whose response has status 200 but whose parsed
`rows` array is empty raises an out-of-range indexing error rather than
returning `None`; the `None` return of `get_report` only ever arises from a
non-200 transport status. -/
theorem C10_empty_rows_raises (resp : HttpResp) (name : String)
    (h200 : resp.status_code = 200)
    (hrows : resp.content.get "rows" = .ok (.arr [])) :
    get_report resp name = .error .indexError ∧
    ∀ (r : HttpResp) (n : String), get_report r n = .ok none → r.status_code ≠ 200 := by
  constructor
  · rw [get_report, if_neg (by simp [h200])]
    simp [hrows, except_bind_ok, JVal.index, except_bind_error]
  · intro r n h hr
    exact get_report_ne_ok_none r n hr h

/-- C10, witness: the theorem applied to a 200 response whose `rows` array is
empty. -/
theorem C10_empty_rows_raises_witness :
    get_report ⟨200, .obj [("rows", JVal.arr [])]⟩ "R" = .error .indexError :=
  (C10_empty_rows_raises ⟨200, .obj [("rows", JVal.arr [])]⟩ "R" rfl rfl).1

end Cico
